import Mathlib

set_option maxRecDepth 8192

/-! Shallow embedding of `src/src/app/app.cpp` from stephenmf/tiny_io_expander:
the output ring buffer with its write/drain cursors, the `vrespond`/`respond`
formatter, the byte-at-a-time command `Parser`, the command dispatcher
`perform_command`, and the indicator resolution of `App::periodic`.
Machine integers are modelled as `Nat`/`Int` with explicit `% 2 ^ w` where the
source narrows; the `written` field of the ring state is a ghost trace of the
bytes accepted by `respond_putc`, used only to state what a render emitted. -/

/-- Capacity of the static output buffer (`output_bufferSIZE = 2048`). -/
def OUT_SIZE : Nat := 2048

/-- State of the output ring: backing array `buf` (`output_buffer`), write
cursor `tx_index`, drain cursor `tx_sent`.  `written` is a ghost trace of
every byte accepted by `respond_putc`, in order; it never feeds back into
behaviour. -/
structure RingBuf where
  buf : List Char
  tx_index : Nat
  tx_sent : Nat
  written : List Char
deriving DecidableEq

/-- The wrapped successor of the write cursor, as computed at the top of
`respond_putc`. -/
def nextIndex (st : RingBuf) : Nat :=
  if st.tx_index + 1 ≥ OUT_SIZE then 0 else st.tx_index + 1

/-- Model of `respond_putc` from app.cpp: refuse (returning false, writing nothing)
when advancing the write cursor would land on the drain cursor; otherwise
store the byte and advance. -/
def respond_putc (c : Char) (st : RingBuf) : Bool × RingBuf :=
  if nextIndex st = st.tx_sent then (false, st)
  else (true, ⟨st.buf.set st.tx_index c, nextIndex st, st.tx_sent, st.written ++ [c]⟩)

/-- Model of `App::write_done`: advance the drain cursor by the number of bytes the
transport consumed; at or past the physical end the cursor resets to 0. -/
def write_done (length : Nat) (st : RingBuf) : RingBuf :=
  ⟨st.buf, st.tx_index,
   if st.tx_sent + length ≥ OUT_SIZE then 0 else st.tx_sent + length,
   st.written⟩

/-- Length of the contiguous pending span handed out by `App::write_buffer`. -/
def pendingLen (st : RingBuf) : Nat :=
  if st.tx_index < st.tx_sent then OUT_SIZE - st.tx_sent
  else st.tx_index - st.tx_sent

/-- Occupied (written, not yet drained) byte count by the cursor formula. -/
def occupied (st : RingBuf) : Nat :=
  (st.tx_index + OUT_SIZE - st.tx_sent) % OUT_SIZE

/-- Position `i` of the backing array currently holds a byte that was written
but not yet drained. -/
def occupiedAt (st : RingBuf) (i : Nat) : Prop :=
  (i + OUT_SIZE - st.tx_sent) % OUT_SIZE < occupied st

instance (st : RingBuf) (i : Nat) : Decidable (occupiedAt st i) := by
  unfold occupiedAt
  exact Nat.decLt _ _

/-- Cursor/array sanity: both cursors inside the array, array of the static
size.  Holds at construction and is preserved by every operation. -/
def goodCursors (st : RingBuf) : Prop :=
  st.tx_index < OUT_SIZE ∧ st.tx_sent < OUT_SIZE ∧ st.buf.length = OUT_SIZE

instance (st : RingBuf) : Decidable (goodCursors st) := by
  unfold goodCursors
  exact instDecidableAnd

/-- Ring state at `App::App`: the constructor zeroes `tx_index` and `tx_sent`;
the static `output_buffer` is zero-initialized. -/
def initRing : RingBuf := ⟨List.replicate OUT_SIZE (Char.ofNat 0), 0, 0, []⟩

/-- One call in a sequence of ring operations: a `respond_putc` or a
`write_done` (advance). -/
inductive BufOp where
  | put (c : Char)
  | advance (n : Nat)
deriving DecidableEq

/-- Run a sequence of ring operations. -/
def runOps : RingBuf → List BufOp → RingBuf
  | st, [] => st
  | st, BufOp.put c :: ops => runOps (respond_putc c st).2 ops
  | st, BufOp.advance n :: ops => runOps (write_done n st) ops

/-- A sequence is valid when every advance consumes at most the pending span
`App::write_buffer` would have handed out at that moment (the caller contract
of `write_done`). -/
def validOps : RingBuf → List BufOp → Bool
  | _, [] => true
  | st, BufOp.put c :: ops => validOps (respond_putc c st).2 ops
  | st, BufOp.advance n :: ops =>
    decide (n ≤ pendingLen st) && validOps (write_done n st) ops

/-- Ghost count of bytes written (accepted by `respond_putc`) and not yet
drained, accumulated along a sequence of operations. -/
def netWritten : RingBuf → List BufOp → Nat → Nat
  | _, [], k => k
  | st, BufOp.put c :: ops, k =>
    netWritten (respond_putc c st).2 ops (if (respond_putc c st).1 then k + 1 else k)
  | st, BufOp.advance n :: ops, k => netWritten (write_done n st) ops (k - n)

/-- Directive kinds of the Conversion decoder (`Conversion::Type`).
Modelled from the spec: the Conversion class lives in `io/framework.h`,
which is not part of src/. -/
inductive ConvType where
  | PERCENT
  | CHARACTER
  | SIGNED_INT
  | UNSIGNED_INT
  | LONG_SIGNED_INT
  | LONG_UNSIGNED_INT
  | LONG_LONG_SIGNED_INT
  | LONG_LONG_UNSIGNED_INT
  | POINTER
  | DOUBLE
  | STRING
  | UNKNOWN
deriving DecidableEq

/-- Modelled from the spec: `Conversion::parse` reads the characters after
the percent, classifies the directive, and advances the format past it.  The
supported subset is %%, %c, %d/%i, %u, %p, %f, %s, with l/ll length modifiers
on the integer directives; anything else is UNKNOWN. -/
def convClass (rest : List Char) : ConvType × Nat :=
  match rest with
  | [] => (ConvType.UNKNOWN, 0)
  | c :: r1 =>
    if c = '%' then (ConvType.PERCENT, 1)
    else if c = 'c' then (ConvType.CHARACTER, 1)
    else if c = 'd' ∨ c = 'i' then (ConvType.SIGNED_INT, 1)
    else if c = 'u' then (ConvType.UNSIGNED_INT, 1)
    else if c = 'p' then (ConvType.POINTER, 1)
    else if c = 'f' then (ConvType.DOUBLE, 1)
    else if c = 's' then (ConvType.STRING, 1)
    else if c = 'l' then
      match r1 with
      | d :: r2 =>
        if d = 'd' ∨ d = 'i' then (ConvType.LONG_SIGNED_INT, 2)
        else if d = 'u' then (ConvType.LONG_UNSIGNED_INT, 2)
        else if d = 'l' then
          match r2 with
          | e :: _ =>
            if e = 'd' ∨ e = 'i' then (ConvType.LONG_LONG_SIGNED_INT, 3)
            else if e = 'u' then (ConvType.LONG_LONG_UNSIGNED_INT, 3)
            else (ConvType.UNKNOWN, 0)
          | [] => (ConvType.UNKNOWN, 0)
        else (ConvType.UNKNOWN, 0)
      | [] => (ConvType.UNKNOWN, 0)
    else (ConvType.UNKNOWN, 0)

/-- The decoder's interface as `vrespond` uses it: the classification and the
format pointer advanced past the directive characters (unchanged on UNKNOWN,
where `vrespond` stops anyway). -/
def convParse (rest : List Char) : ConvType × List Char :=
  ((convClass rest).1, rest.drop (convClass rest).2)

/-- Fuel-bounded decimal digit emitter; the fuel only bounds recursion
depth and is always supplied larger than the digit count. -/
def natDigitsAux : Nat → Nat → List Char
  | 0, _ => []
  | _ + 1, 0 => []
  | f + 1, n + 1 => natDigitsAux f ((n + 1) / 10) ++ [Char.ofNat (48 + (n + 1) % 10)]

/-- Decimal rendering of a natural number. -/
def natToDec (n : Nat) : List Char :=
  if n = 0 then ['0'] else natDigitsAux (n + 1) n

/-- Decimal rendering of a signed integer. -/
def intToDec (i : Int) : List Char :=
  if i < 0 then '-' :: natToDec i.natAbs else natToDec i.natAbs

/-- A variadic argument as passed to `respond`/`vrespond`. -/
inductive Arg where
  | int (i : Int)
  | uint (n : Nat)
  | chr (c : Char)
  | str (s : List Char)
deriving DecidableEq

/-- Modelled from the spec: `va_arg` fetch.  An exhausted list yields a benign
default, a case the firmware never exercises. -/
def takeArg : List Arg → Arg × List Arg
  | [] => (Arg.int 0, [])
  | a :: rest => (a, rest)

/-- View an argument as a signed integer. -/
def argAsInt : Arg → Int
  | Arg.int i => i
  | Arg.uint n => (n : Int)
  | Arg.chr c => (c.toNat : Int)
  | Arg.str _ => 0

/-- View an argument as an unsigned integer. -/
def argAsNat : Arg → Nat
  | Arg.int i => i.toNat
  | Arg.uint n => n
  | Arg.chr c => c.toNat
  | Arg.str _ => 0

/-- View an argument as a character. -/
def argAsChar : Arg → Char
  | Arg.chr c => c
  | Arg.int i => Char.ofNat i.toNat
  | Arg.uint n => Char.ofNat n
  | Arg.str _ => Char.ofNat 0

/-- View an argument as a string. -/
def argAsStr : Arg → List Char
  | Arg.str s => s
  | _ => []

/-- Modelled from the spec: the rendering of one classified directive into the
decoder's short-lived string (`Conversion::from_character`, `from_signed_int`,
`from_unsigned_int`, `from_double`, `from_string`), consuming one argument.
The double case is modelled over the integers; no claim depends on its text. -/
def renderDirective (t : ConvType) (args : List Arg) : Option (List Char) × List Arg :=
  match t with
  | ConvType.PERCENT => (some ['%'], args)
  | ConvType.CHARACTER => (some [argAsChar (takeArg args).1], (takeArg args).2)
  | ConvType.SIGNED_INT => (some (intToDec (argAsInt (takeArg args).1)), (takeArg args).2)
  | ConvType.LONG_SIGNED_INT => (some (intToDec (argAsInt (takeArg args).1)), (takeArg args).2)
  | ConvType.LONG_LONG_SIGNED_INT => (some (intToDec (argAsInt (takeArg args).1)), (takeArg args).2)
  | ConvType.UNSIGNED_INT => (some (natToDec (argAsNat (takeArg args).1)), (takeArg args).2)
  | ConvType.LONG_UNSIGNED_INT => (some (natToDec (argAsNat (takeArg args).1)), (takeArg args).2)
  | ConvType.LONG_LONG_UNSIGNED_INT => (some (natToDec (argAsNat (takeArg args).1)), (takeArg args).2)
  | ConvType.POINTER => (some (natToDec (argAsNat (takeArg args).1)), (takeArg args).2)
  | ConvType.DOUBLE => (some (intToDec (argAsInt (takeArg args).1)), (takeArg args).2)
  | ConvType.STRING => (some (argAsStr (takeArg args).1), (takeArg args).2)
  | ConvType.UNKNOWN => (none, args)

/-- Inner loop of `vrespond`: drain one rendered string into the ring,
stopping the moment `respond_putc` reports the buffer full. -/
def putList : List Char → RingBuf → Bool × RingBuf
  | [], st => (true, st)
  | c :: cs, st =>
    if (respond_putc c st).1 then putList cs (respond_putc c st).2
    else (false, (respond_putc c st).2)

/-- Loop of `vrespond` from app.cpp.  `fuel` only bounds recursion depth (the
source loop consumes at least one format character per iteration, so
`fmt.length` fuel is always enough); `result` is the running value of the
source's uninitialized local `int result`, incremented exactly on literal
(non-directive) format bytes. -/
def vrespondAux : Nat → List Char → List Arg → Int → RingBuf → Int × RingBuf
  | _, [], _, result, st => (result, st)
  | 0, _ :: _, _, result, st => (result, st)
  | fuel + 1, c :: rest, args, result, st =>
    if c = '%' then
      if (convParse rest).1 = ConvType.UNKNOWN then (result, st)
      else
        match (renderDirective (convParse rest).1 args).1 with
        | none =>
          vrespondAux fuel (convParse rest).2 (renderDirective (convParse rest).1 args).2 result st
        | some s =>
          if (putList s st).1 then
            vrespondAux fuel (convParse rest).2 (renderDirective (convParse rest).1 args).2 result
              (putList s st).2
          else (result, (putList s st).2)
    else
      if (respond_putc c st).1 then
        vrespondAux fuel rest args (result + 1) (respond_putc c st).2
      else (result + 1, (respond_putc c st).2)

/-- Model of `vrespond(format, args)`: `result0` is the indeterminate initial value of
the uninitialized local counter. -/
def vrespond (result0 : Int) (fmt : List Char) (args : List Arg) (st : RingBuf) : Int × RingBuf :=
  vrespondAux fmt.length fmt args result0 st

/-- Model of `respond(format...)`: forwards to `vrespond` and returns its counter. -/
def respond (result0 : Int) (fmt : List Char) (args : List Arg) (st : RingBuf) : Int × RingBuf :=
  vrespond result0 fmt args st

/-- Parser states (`Parser::State`). -/
inductive PState where
  | COMMAND
  | TARGET
  | NEXT_VALUE
  | VALUE
deriving DecidableEq

/-- Parsed command kinds (`Parser::Command`). -/
inductive PCommand where
  | NONE
  | STATUS
  | RESET
  | VALVE
deriving DecidableEq

/-- The parser record: `target` and `index` are uint8, the two `values`
slots are uint16 accumulators. -/
structure Parser where
  state : PState
  command : PCommand
  target : Nat
  index : Nat
  values : List Nat
deriving DecidableEq

/-- Model of `Parser::Parser()`: the member initializer list covers `state`, `command`,
`target` and `values` (value-initialized to zeros) but not `index`; the
parameter `indet` stands for whatever the member holds before construction. -/
def parserConstruct (indet : Nat) : Parser :=
  ⟨PState.COMMAND, PCommand.NONE, 0, indet, [0, 0]⟩

/-- Model of `Parser::reset()`: back to COMMAND/NONE, zero target and index, zero every
value slot. -/
def Parser.reset (p : Parser) : Parser :=
  ⟨PState.COMMAND, PCommand.NONE, 0, 0, p.values.map fun _ => 0⟩

/-- The ESC byte. -/
def escC : Char := Char.ofNat 27

/-- ASCII single quote, used by the parser's error formats. -/
def quoteC : Char := Char.ofNat 39

/-- Format of the bad-command-letter error response. -/
def fmtEc : List Char := ['E', 'c', quoteC, '%', 'c', quoteC, '\r', '\n']

/-- Format of the bad-target error response. -/
def fmtEt : List Char := ['E', 't', quoteC, '%', 'c', quoteC, '\r', '\n']

/-- Model of `Parser::parse` from app.cpp: one byte of the command FSM.  Returns
(complete?, parser, ring); the ring changes only on the two error responses.
Bytes are compared as the unsigned chars of the target platform. -/
def Parser.parse (p : Parser) (c : Char) (rb : RingBuf) : Bool × Parser × RingBuf :=
  match p.state with
  | PState.COMMAND =>
    if c = 's' ∨ c = 'S' then (true, { p with command := PCommand.STATUS }, rb)
    else if c = 'r' ∨ c = 'R' then
      (false, { p with command := PCommand.RESET, state := PState.NEXT_VALUE }, rb)
    else if c = 'v' ∨ c = 'V' then
      (false, { p with command := PCommand.VALVE, state := PState.TARGET }, rb)
    else if 32 < c.toNat then
      (false, p.reset, (respond 0 fmtEc [Arg.chr c] rb).2)
    else (false, p, rb)
  | PState.TARGET =>
    if c.toNat = 27 then (false, p.reset, rb)
    else if 48 ≤ c.toNat ∧ c.toNat ≤ 57 then
      (false, { p with target := c.toNat - 48, state := PState.NEXT_VALUE }, rb)
    else if 32 < c.toNat then
      (false, p.reset, (respond 0 fmtEt [Arg.chr c] rb).2)
    else (false, p, rb)
  | PState.NEXT_VALUE =>
    if c.toNat = 27 then (false, p.reset, rb)
    else if 48 ≤ c.toNat ∧ c.toNat ≤ 57 then
      (false, { p with values := p.values.set p.index (c.toNat - 48), state := PState.VALUE }, rb)
    else (false, p, rb)
  | PState.VALUE =>
    if c.toNat = 27 then (false, p.reset, rb)
    else if 48 ≤ c.toNat ∧ c.toNat ≤ 57 then
      (false,
       { p with values :=
          p.values.set p.index ((p.values.getD p.index 0 * 10 + (c.toNat - 48)) % 65536) },
       rb)
    else if c = ',' ∨ c = ':' then
      if p.index + 1 < p.values.length then
        (false, { p with index := p.index + 1, state := PState.NEXT_VALUE }, rb)
      else (true, { p with index := p.index + 1 }, rb)
    else (true, p, rb)

/-- Snapshot of the hardware collaborators read by `App::perform_command`. -/
structure Hw where
  indicator_state : Int
  valve0 : Bool
  valve1 : Bool
  moisture0_updated : Bool
  moisture0_value : Int
  moisture1_updated : Bool
  moisture1_value : Int
  flow0_updated : Bool
  flow0_value : Int
  flow1_updated : Bool
  flow1_value : Int
deriving DecidableEq

/-- Hardware-level actions a dispatch can trigger. -/
inductive HwEffect where
  | usb_boot
  | watchdog_reboot
  | pulse0 (n : Nat)
  | pulse1 (n : Nat)
deriving DecidableEq

/-- Bool as the int a C promotion would produce. -/
def boolInt (b : Bool) : Int := if b then 1 else 0

/-- Freshness marker: space when updated, dash when stale. -/
def freshChar (b : Bool) : Char := if b then ' ' else '-'

/-- Format of the STATUS response. -/
def fmtStatus : List Char :=
  ("R\x7b\"l\":%d,\"v0\":%d,\"v1\":%d,\"m0\":%c%d,\"m1\":%c%d,\"m2\":%c%d," ++
   "\"f0\":%c%d,\"f1\":%c%d\x7d\r\n").toList

/-- Format of the valve-0 acknowledgment. -/
def fmtAV0 : List Char := "AV0\r\n".toList

/-- Format of the valve-1 acknowledgment. -/
def fmtAV1 : List Char := "AV1\r\n".toList

/-- Format of the bad-reset-value error response. -/
def fmtErd : List Char := "Er%d\r\n".toList

/-- Format of the bad-valve-target error response. -/
def fmtEvd : List Char := "Ev%d\r\n".toList

/-- Model of `App::perform_command`: dispatch a completed parse.  Returns the hardware
effects and the updated ring; the console printf diagnostics do not touch the
ring and are not modelled.  `reset_usb_boot` and `watchdog_reboot` are the
collaborator-owned reset paths. -/
def perform_command (hw : Hw) (p : Parser) (rb : RingBuf) : List HwEffect × RingBuf :=
  match p.command with
  | PCommand.STATUS =>
    ([],
     (respond 0 fmtStatus
       [Arg.int hw.indicator_state, Arg.int (boolInt hw.valve0), Arg.int (boolInt hw.valve1),
        Arg.chr (freshChar hw.moisture0_updated), Arg.int hw.moisture0_value,
        Arg.chr (freshChar hw.moisture1_updated), Arg.int hw.moisture1_value,
        Arg.chr (freshChar hw.moisture1_updated), Arg.int 0,
        Arg.chr (freshChar hw.flow0_updated), Arg.int hw.flow0_value,
        Arg.chr (freshChar hw.flow1_updated), Arg.int hw.flow1_value] rb).2)
  | PCommand.RESET =>
    if p.values.getD 0 0 = 5511 then ([HwEffect.usb_boot], rb)
    else if p.values.getD 0 0 = 1033 then ([HwEffect.watchdog_reboot], rb)
    else ([], (respond 0 fmtErd [Arg.int (p.values.getD 0 0 : Int)] rb).2)
  | PCommand.VALVE =>
    if p.target = 0 then
      ([HwEffect.pulse0 (p.values.getD 0 0)], (respond 0 fmtAV0 [] rb).2)
    else if p.target = 1 then
      ([HwEffect.pulse1 (p.values.getD 0 0)], (respond 0 fmtAV1 [] rb).2)
    else ([], (respond 0 fmtEvd [Arg.int (p.target : Int)] rb).2)
  | PCommand.NONE => ([], rb)

/-- Constant `TIMEOUT_DELAY`: ten seconds of microseconds. -/
def TIMEOUT_DELAY : Nat := 10 * 1000 * 1000

/-- Controller state: liveness deadline, parser, ring. -/
structure AppState where
  timeout : Nat
  par : Parser
  ring : RingBuf
deriving DecidableEq

/-- State after `App::App`: cursors zeroed; the namespace-static parser object
is constructed over zero-initialized static storage, so its uninitialized
`index` member reads 0 there. -/
def appInit : AppState := ⟨0, parserConstruct 0, initRing⟩

/-- Model of `App::parse`: refresh the liveness deadline, feed one byte, and on a
completed parse dispatch it and reset the parser. -/
def appParse (hw : Hw) (now : Nat) (c : Char) (a : AppState) : AppState × List HwEffect :=
  let r := a.par.parse c a.ring
  if r.1 then
    let e := perform_command hw r.2.1 r.2.2
    (⟨TIMEOUT_DELAY + now, Parser.reset r.2.1, e.2⟩, e.1)
  else (⟨TIMEOUT_DELAY + now, r.2.1, r.2.2⟩, [])

/-- Model of `App::read_done`: feed the received bytes one at a time, collecting the
dispatched hardware effects in order. -/
def read_done (hw : Hw) (now : Nat) : List Char → AppState → AppState × List HwEffect
  | [], a => (a, [])
  | c :: cs, a =>
    (((read_done hw now cs (appParse hw now c a).1)).1,
     (appParse hw now c a).2 ++ (read_done hw now cs (appParse hw now c a).1).2)

/-- Indicator states (the `State` enum consumed by `App::periodic`). -/
inductive IState where
  | CONNECTED
  | DISCONNECTED
  | VALVE0_ON
  | VALVE1_ON
  | BOTH_VALVES_ON
deriving DecidableEq

/-- The indicator-state decision of `App::periodic`, over the polled valve
outputs, the stored deadline `timeout_` and the current clock. -/
def resolveIndicator (valve0_on valve1_on : Bool) (timeout now : Nat) : IState :=
  if valve0_on && valve1_on then IState.BOTH_VALVES_ON
  else if valve0_on then IState.VALVE0_ON
  else if valve1_on then IState.VALVE1_ON
  else if timeout < now then IState.DISCONNECTED
  else IState.CONNECTED

/-- What a render preserves of a ring state: the drain cursor, the array
size, and every occupied byte (which also stays occupied). -/
def RingPreserved (st st2 : RingBuf) : Prop :=
  st2.tx_sent = st.tx_sent ∧ st2.buf.length = st.buf.length ∧
  ∀ i, occupiedAt st i → occupiedAt st2 i ∧ st2.buf[i]? = st.buf[i]?


/-- A ring state with one occupied byte, used to instantiate the truncation
theorem. -/
def st0 : RingBuf := ⟨List.replicate OUT_SIZE (Char.ofNat 0), 3, 1, []⟩


/-- Spec-side text of one full render: what the call would emit given
unlimited room; `none` when an unknown directive aborts it (or the fuel,
always chosen at least the format length, runs out). -/
def renderedText : Nat → List Char → List Arg → Option (List Char)
  | _, [], _ => some []
  | 0, _ :: _, _ => none
  | f + 1, c :: rest, args =>
    if c = '%' then
      if (convParse rest).1 = ConvType.UNKNOWN then none
      else
        match (renderDirective (convParse rest).1 args).1 with
        | none => renderedText f (convParse rest).2 (renderDirective (convParse rest).1 args).2
        | some s =>
          match renderedText f (convParse rest).2 (renderDirective (convParse rest).1 args).2 with
          | none => none
          | some out => some (s ++ out)
    else
      match renderedText f rest args with
      | none => none
      | some out => some (c :: out)


/-- Concrete hardware snapshot used by the scenario theorems; the VALVE and
RESET dispatch paths do not read it. -/
def hw0 : Hw := ⟨0, false, false, false, 0, false, 0, false, 0, false, 0⟩

/-- C1 counterexample: feeding the bytes of `V0100,` and then CR from the
initial controller state dispatches nothing: no hardware effect, no response
byte, and the parser is left waiting in NEXT_VALUE (the comma opened a second
value slot; CR is ignored there). -/
theorem valve_trailing_comma_does_not_dispatch :
    (read_done hw0 0 ("V0100,\r".toList) appInit).2 = [] ∧
    (read_done hw0 0 ("V0100,\r".toList) appInit).1.ring.written = [] ∧
    (read_done hw0 0 ("V0100,\r".toList) appInit).1.par.state = PState.NEXT_VALUE := by
  decide

/-- C1 amended: feeding `V0100` leaves the parser in VALUE with target 0 and
values [100, 0]; the following CR terminator completes the command, valve 0
is pulsed for 100, and the emitted response is `AV0\r\n`. -/
theorem valve_no_comma_dispatches :
    (read_done hw0 0 ("V0100".toList) appInit).1.par =
      ⟨PState.VALUE, PCommand.VALVE, 0, 0, [100, 0]⟩ ∧
    (read_done hw0 0 ("V0100\r".toList) appInit).2 = [HwEffect.pulse0 100] ∧
    (read_done hw0 0 ("V0100\r".toList) appInit).1.ring.written = "AV0\r\n".toList := by
  decide

/-- C7: on every tick the indicator is resolved with the exact priority
both-valves, valve 0, valve 1, elapsed deadline, connected. -/
theorem periodic_indicator_priority (v0 v1 : Bool) (t now : Nat) :
    (v0 = true → v1 = true → resolveIndicator v0 v1 t now = IState.BOTH_VALVES_ON) ∧
    (v0 = true → v1 = false → resolveIndicator v0 v1 t now = IState.VALVE0_ON) ∧
    (v0 = false → v1 = true → resolveIndicator v0 v1 t now = IState.VALVE1_ON) ∧
    (v0 = false → v1 = false → t < now → resolveIndicator v0 v1 t now = IState.DISCONNECTED) ∧
    (v0 = false → v1 = false → ¬ t < now → resolveIndicator v0 v1 t now = IState.CONNECTED) := by
  cases v0 <;> cases v1 <;>
    refine ⟨?_, ?_, ?_, ?_, ?_⟩ <;> intros <;> simp_all [resolveIndicator]

theorem periodic_indicator_priority_witness :
    resolveIndicator true true 0 0 = IState.BOTH_VALVES_ON :=
  (periodic_indicator_priority true true 0 0).1 rfl rfl

/-- C8: ESC in any state other than COMMAND silently cancels: the parser is
reset (state COMMAND, command NONE, everything zeroed) and the ring — hence
the response stream — is untouched. -/
theorem parse_esc_silent_cancel (p : Parser) (rb : RingBuf)
    (h : p.state ≠ PState.COMMAND) :
    p.parse escC rb = (false, p.reset, rb) ∧
    (p.reset).state = PState.COMMAND ∧ (p.reset).command = PCommand.NONE := by
  obtain ⟨s, cmd, t, i, vs⟩ := p
  cases s with
  | COMMAND => exact absurd rfl h
  | TARGET => exact ⟨by simp [Parser.parse, escC], rfl, rfl⟩
  | NEXT_VALUE => exact ⟨by simp [Parser.parse, escC], rfl, rfl⟩
  | VALUE => exact ⟨by simp [Parser.parse, escC], rfl, rfl⟩

theorem parse_esc_silent_cancel_witness :
    (⟨PState.TARGET, PCommand.VALVE, 0, 0, [0, 0]⟩ : Parser).state ≠ PState.COMMAND ∧
    ((⟨PState.TARGET, PCommand.VALVE, 0, 0, [0, 0]⟩ : Parser).parse escC initRing =
      (false, (⟨PState.TARGET, PCommand.VALVE, 0, 0, [0, 0]⟩ : Parser).reset, initRing) ∧
     ((⟨PState.TARGET, PCommand.VALVE, 0, 0, [0, 0]⟩ : Parser).reset).state = PState.COMMAND ∧
     ((⟨PState.TARGET, PCommand.VALVE, 0, 0, [0, 0]⟩ : Parser).reset).command = PCommand.NONE) :=
  ⟨by decide, parse_esc_silent_cancel _ initRing (by decide)⟩

/-- C5: in the VALUE state a digit byte updates the current accumulator to
`old * 10 + digit` reduced modulo 2 ^ 16 (the uint16 narrowing on store), with
no overflow guard; the parser stays in VALUE and nothing else changes. -/
theorem parse_value_digit_wraps (p : Parser) (rb : RingBuf) (c : Char)
    (hs : p.state = PState.VALUE) (hd : 48 ≤ c.toNat ∧ c.toNat ≤ 57)
    (hi : p.index < p.values.length) :
    (p.parse c rb).1 = false ∧
    (p.parse c rb).2.2 = rb ∧
    (p.parse c rb).2.1.state = PState.VALUE ∧
    (p.parse c rb).2.1.values.getD p.index 0 =
      (p.values.getD p.index 0 * 10 + (c.toNat - 48)) % 65536 := by
  obtain ⟨s, cmd, t, i, vs⟩ := p
  simp only at hs hi
  subst hs
  have h27 : ¬ c.toNat = 27 := by omega
  refine ⟨?_, ?_, ?_, ?_⟩ <;>
    simp [Parser.parse, h27, hd, List.getD, List.getElem?_set_eq_of_lt, hi]

theorem parse_value_digit_wraps_witness :
    (⟨PState.VALUE, PCommand.VALVE, 0, 0, [65535, 0]⟩ : Parser).state = PState.VALUE ∧
    ((⟨PState.VALUE, PCommand.VALVE, 0, 0, [65535, 0]⟩ : Parser).parse '5' initRing).1 = false ∧
    ((⟨PState.VALUE, PCommand.VALVE, 0, 0, [65535, 0]⟩ : Parser).parse '5' initRing).2.2 = initRing ∧
    ((⟨PState.VALUE, PCommand.VALVE, 0, 0, [65535, 0]⟩ : Parser).parse '5' initRing).2.1.state =
      PState.VALUE ∧
    ((⟨PState.VALUE, PCommand.VALVE, 0, 0, [65535, 0]⟩ : Parser).parse '5' initRing).2.1.values.getD
      0 0 = (65535 * 10 + (Char.toNat '5' - 48)) % 65536 := by
  have h := parse_value_digit_wraps ⟨PState.VALUE, PCommand.VALVE, 0, 0, [65535, 0]⟩ initRing '5'
    rfl (by decide) (by decide)
  exact ⟨rfl, h.1, h.2.1, h.2.2.1, h.2.2.2⟩

/-- C9: the Parser constructor sets state COMMAND, command NONE, target 0 and
zeroed values but leaves `index` at whatever the member held, so construction
alone does not establish `index < 2`; only `reset` forces `index = 0`. -/
theorem parser_ctor_leaves_index_uninitialized :
    (∀ indet, parserConstruct indet =
      ⟨PState.COMMAND, PCommand.NONE, 0, indet, [0, 0]⟩) ∧
    (∃ indet, ¬ (parserConstruct indet).index < 2) ∧
    (∀ p : Parser, (p.reset).index = 0) :=
  ⟨fun _ => rfl, ⟨2, by decide⟩, fun _ => rfl⟩

/-- One `respond_putc` keeps both cursors in range and changes the occupied
count by exactly one on success and zero on refusal. -/
theorem respond_putc_occupied (c : Char) (st : RingBuf)
    (h1 : st.tx_index < OUT_SIZE) (h2 : st.tx_sent < OUT_SIZE) :
    (respond_putc c st).2.tx_index < OUT_SIZE ∧
    (respond_putc c st).2.tx_sent < OUT_SIZE ∧
    occupied (respond_putc c st).2 =
      (if (respond_putc c st).1 then occupied st + 1 else occupied st) := by
  unfold respond_putc nextIndex occupied OUT_SIZE at *
  split_ifs with hw hfull hfull <;> simp_all <;> omega

/-- A valid `write_done` keeps the cursors in range and removes exactly `n`
from the occupied count. -/
theorem write_done_occupied (n : Nat) (st : RingBuf)
    (h1 : st.tx_index < OUT_SIZE) (h2 : st.tx_sent < OUT_SIZE)
    (hn : n ≤ pendingLen st) :
    (write_done n st).tx_index < OUT_SIZE ∧
    (write_done n st).tx_sent < OUT_SIZE ∧
    n ≤ occupied st ∧
    occupied (write_done n st) = occupied st - n := by
  unfold write_done pendingLen occupied OUT_SIZE at *
  split_ifs at * <;> simp_all <;> omega

/-- Along any valid operation sequence the cursors stay in range and the
cursor-formula occupied count equals the ghost written-not-drained count. -/
theorem runOps_occupied : ∀ (ops : List BufOp) (st : RingBuf) (k : Nat),
    st.tx_index < OUT_SIZE → st.tx_sent < OUT_SIZE → occupied st = k →
    validOps st ops = true →
    (runOps st ops).tx_index < OUT_SIZE ∧ (runOps st ops).tx_sent < OUT_SIZE ∧
    occupied (runOps st ops) = netWritten st ops k := by
  intro ops
  induction ops with
  | nil => intro st k h1 h2 h3 _; exact ⟨h1, h2, h3⟩
  | cons op ops ih =>
    intro st k h1 h2 h3 hv
    cases op with
    | put c =>
      have hs := respond_putc_occupied c st h1 h2
      have hv' : validOps (respond_putc c st).2 ops = true := hv
      have := ih (respond_putc c st).2 (if (respond_putc c st).1 then k + 1 else k)
        hs.1 hs.2.1 (by rw [hs.2.2, h3]) hv'
      exact this
    | advance n =>
      have hv1 : n ≤ pendingLen st ∧ validOps (write_done n st) ops = true := by
        simpa [validOps] using hv
      have hs := write_done_occupied n st h1 h2 hv1.1
      have := ih (write_done n st) (k - n) hs.1 hs.2.1 (by rw [hs.2.2.2, h3]) hv1.2
      exact this

/-- C2: from zeroed cursors, under the `write_done` caller contract (advance
at most the pending span), the occupied byte count always equals the number
of bytes accepted and not yet drained and never exceeds capacity − 1; and
`respond_putc` refuses, leaving the state untouched, exactly when accepting
the byte would make the write cursor meet the drain cursor. -/
theorem ring_never_overwrites_unread :
    (∀ ops : List BufOp, validOps initRing ops = true →
      occupied (runOps initRing ops) = netWritten initRing ops 0 ∧
      occupied (runOps initRing ops) ≤ OUT_SIZE - 1) ∧
    (∀ (c : Char) (st : RingBuf), nextIndex st = st.tx_sent →
      respond_putc c st = (false, st)) := by
  constructor
  · intro ops hv
    have h := runOps_occupied ops initRing 0 (by decide) (by decide) (by decide) hv
    refine ⟨h.2.2, ?_⟩
    have : occupied (runOps initRing ops) < OUT_SIZE := by
      unfold occupied OUT_SIZE
      omega
    omega
  · intro c st h
    unfold respond_putc
    rw [if_pos h]

theorem ring_never_overwrites_unread_witness :
    validOps initRing [BufOp.put 'a', BufOp.advance 1] = true ∧
    (occupied (runOps initRing [BufOp.put 'a', BufOp.advance 1]) =
       netWritten initRing [BufOp.put 'a', BufOp.advance 1] 0 ∧
     occupied (runOps initRing [BufOp.put 'a', BufOp.advance 1]) ≤ OUT_SIZE - 1) ∧
    nextIndex (⟨[], 5, 6, []⟩ : RingBuf) = (⟨[], 5, 6, []⟩ : RingBuf).tx_sent ∧
    respond_putc 'z' (⟨[], 5, 6, []⟩ : RingBuf) = (false, (⟨[], 5, 6, []⟩ : RingBuf)) :=
  ⟨by decide,
   ring_never_overwrites_unread.1 [BufOp.put 'a', BufOp.advance 1] (by decide),
   by decide,
   ring_never_overwrites_unread.2 'z' ⟨[], 5, 6, []⟩ (by decide)⟩

/-- Empty format: the loop exits immediately for any fuel. -/
theorem vrespondAux_nil (f : Nat) (args : List Arg) (r : Int) (st : RingBuf) :
    vrespondAux f [] args r st = (r, st) := by
  cases f <;> rfl

/-- The decoder never un-consumes format characters. -/
theorem convParse_len (rest : List Char) : (convParse rest).2.length ≤ rest.length := by
  unfold convParse
  simp

/-- The fuel is irrelevant as long as it covers the format length. -/
theorem vrespondAux_fuel : ∀ (f1 f2 : Nat) (fmt : List Char) (args : List Arg)
    (r : Int) (st : RingBuf), fmt.length ≤ f1 → fmt.length ≤ f2 →
    vrespondAux f1 fmt args r st = vrespondAux f2 fmt args r st := by
  intro f1
  induction f1 with
  | zero =>
    intro f2 fmt args r st h1 _
    have : fmt = [] := List.eq_nil_of_length_eq_zero (Nat.le_zero.mp h1)
    subst this
    rw [vrespondAux_nil, vrespondAux_nil]
  | succ n ih =>
    intro f2 fmt args r st h1 h2
    cases fmt with
    | nil => rw [vrespondAux_nil, vrespondAux_nil]
    | cons c rest =>
      cases f2 with
      | zero => simp at h2
      | succ m =>
        have hr1 : rest.length ≤ n := by simpa using h1
        have hr2 : rest.length ≤ m := by simpa using h2
        have hc1 : (convParse rest).2.length ≤ n := le_trans (convParse_len rest) hr1
        have hc2 : (convParse rest).2.length ≤ m := le_trans (convParse_len rest) hr2
        show vrespondAux (n + 1) (c :: rest) args r st = vrespondAux (m + 1) (c :: rest) args r st
        simp only [vrespondAux]
        by_cases hp : c = '%'
        · rw [if_pos hp, if_pos hp]
          by_cases hu : (convParse rest).1 = ConvType.UNKNOWN
          · rw [if_pos hu, if_pos hu]
          · rw [if_neg hu, if_neg hu]
            cases hrd : (renderDirective (convParse rest).1 args).1 with
            | none => exact ih m _ _ r st hc1 hc2
            | some s =>
              dsimp only
              by_cases hl : (putList s st).1
              · rw [if_pos hl, if_pos hl]
                exact ih m _ _ r _ hc1 hc2
              · rw [if_neg hl, if_neg hl]
        · rw [if_neg hp, if_neg hp]
          by_cases hb : (respond_putc c st).1
          · rw [if_pos hb, if_pos hb]
            exact ih m _ _ (r + 1) _ hr1 hr2
          · rw [if_neg hb, if_neg hb]

/-- Hitting a percent whose directive is UNKNOWN ends the render exactly
where it stands, for any fuel: the result is what rendering the preceding
literal text alone produces. -/
theorem vrespondAux_unknown : ∀ (pre : List Char) (f : Nat) (rest : List Char)
    (args : List Arg) (r : Int) (st : RingBuf),
    (∀ c ∈ pre, c ≠ '%') → (convParse rest).1 = ConvType.UNKNOWN →
    vrespondAux f (pre ++ '%' :: rest) args r st = vrespondAux f pre args r st := by
  intro pre
  induction pre with
  | nil =>
    intro f rest args r st _ hu
    cases f with
    | zero => rfl
    | succ n =>
      show vrespondAux (n + 1) ('%' :: rest) args r st = _
      simp [vrespondAux, hu, vrespondAux_nil]
  | cons c pre ih =>
    intro f rest args r st hpre hu
    have hc : ¬ c = '%' := hpre c (List.mem_cons_self c pre)
    cases f with
    | zero => rfl
    | succ n =>
      show vrespondAux (n + 1) (c :: (pre ++ '%' :: rest)) args r st =
        vrespondAux (n + 1) (c :: pre) args r st
      simp only [vrespondAux]
      rw [if_neg hc, if_neg hc]
      by_cases hb : (respond_putc c st).1
      · rw [if_pos hb, if_pos hb]
        exact ih n rest args (r + 1) _ (fun d hd => hpre d (List.mem_cons_of_mem c hd)) hu
      · rw [if_neg hb, if_neg hb]

/-- C3: an unrecognized directive aborts the remainder of the render call:
with any literal prefix already processed, rendering the full format equals
rendering just the prefix — everything queued by the prefix stays queued, and
neither the rest of the format nor any argument adds a byte. -/
theorem vrespond_unknown_directive_aborts (r0 : Int) (pre rest : List Char)
    (args : List Arg) (st : RingBuf)
    (hpre : ∀ c ∈ pre, c ≠ '%') (hu : (convParse rest).1 = ConvType.UNKNOWN) :
    vrespond r0 (pre ++ '%' :: rest) args st = vrespond r0 pre args st := by
  unfold vrespond
  rw [vrespondAux_unknown pre _ rest args r0 st hpre hu]
  exact vrespondAux_fuel _ _ pre args r0 st (by simp) (le_refl _)

theorem vrespond_unknown_directive_aborts_witness :
    (∀ c ∈ ("ab".toList), c ≠ '%') ∧
    (convParse ("q".toList)).1 = ConvType.UNKNOWN ∧
    vrespond 0 ("ab".toList ++ '%' :: "q".toList) [] initRing =
      vrespond 0 ("ab".toList) [] initRing :=
  ⟨by decide, by decide,
   vrespond_unknown_directive_aborts 0 ("ab".toList) ("q".toList) [] initRing
     (by decide) (by decide)⟩

/-- The returned counter is the indeterminate initial value plus the literal
bytes consumed: shifting the initial value shifts the result, nothing else. -/
theorem vrespondAux_result_shift : ∀ (f : Nat) (fmt : List Char) (args : List Arg)
    (r0 r : Int) (st : RingBuf),
    vrespondAux f fmt args (r0 + r) st =
      (r0 + (vrespondAux f fmt args r st).1, (vrespondAux f fmt args r st).2) := by
  intro f
  induction f with
  | zero => intro fmt args r0 r st; cases fmt <;> rfl
  | succ n ih =>
    intro fmt args r0 r st
    cases fmt with
    | nil => rfl
    | cons c rest =>
      show vrespondAux (n + 1) (c :: rest) args (r0 + r) st = _
      simp only [vrespondAux]
      by_cases hp : c = '%'
      · rw [if_pos hp, if_pos hp]
        by_cases hu : (convParse rest).1 = ConvType.UNKNOWN
        · rw [if_pos hu, if_pos hu]
        · rw [if_neg hu, if_neg hu]
          cases hrd : (renderDirective (convParse rest).1 args).1 with
          | none => exact ih _ _ r0 r st
          | some s =>
            dsimp only
            by_cases hl : (putList s st).1
            · rw [if_pos hl, if_pos hl]
              exact ih _ _ r0 r _
            · rw [if_neg hl, if_neg hl]
      · rw [if_neg hp, if_neg hp]
        by_cases hb : (respond_putc c st).1
        · rw [if_pos hb, if_pos hb]
          rw [show r0 + r + 1 = r0 + (r + 1) by ring]
          exact ih _ _ r0 (r + 1) _
        · rw [if_neg hb, if_neg hb]
          rw [show r0 + r + 1 = r0 + (r + 1) by ring]

/-- C10: the value `respond` returns is the uninitialized counter's starting
value plus the number of literal format bytes consumed — it shifts one-for-one
with that indeterminate start, and a directive's rendered bytes (here `%d`,
which does append text) leave it unchanged. -/
theorem respond_returns_uninitialized_counter :
    (∀ (r0 : Int) (fmt : List Char) (args : List Arg) (st : RingBuf),
      (respond r0 fmt args st).1 = r0 + (respond 0 fmt args st).1) ∧
    (∀ (r0 : Int) (args : List Arg) (st : RingBuf),
      (respond r0 ('%' :: 'd' :: []) args st).1 = r0) := by
  constructor
  · intro r0 fmt args st
    unfold respond vrespond
    have h := vrespondAux_result_shift fmt.length fmt args r0 0 st
    rw [add_zero] at h
    rw [h]
  · intro r0 args st
    unfold respond vrespond
    show (vrespondAux 2 ('%' :: 'd' :: []) args r0 st).1 = r0
    have hstep : vrespondAux 2 ('%' :: 'd' :: []) args r0 st =
        if (putList (intToDec (argAsInt (takeArg args).1)) st).1 then
          vrespondAux 1 [] (takeArg args).2 r0
            (putList (intToDec (argAsInt (takeArg args).1)) st).2
        else (r0, (putList (intToDec (argAsInt (takeArg args).1)) st).2) := rfl
    rw [hstep]
    by_cases hl : (putList (intToDec (argAsInt (takeArg args).1)) st).1
    · rw [if_pos hl, vrespondAux_nil]
    · rw [if_neg hl]

theorem ringPreserved_rfl (st : RingBuf) : RingPreserved st st :=
  ⟨rfl, rfl, fun _ h => ⟨h, rfl⟩⟩

theorem ringPreserved_trans {s1 s2 s3 : RingBuf}
    (h12 : RingPreserved s1 s2) (h23 : RingPreserved s2 s3) : RingPreserved s1 s3 := by
  refine ⟨h23.1.trans h12.1, h23.2.1.trans h12.2.1, fun i hi => ?_⟩
  have a := h12.2.2 i hi
  have b := h23.2.2 i a.1
  exact ⟨b.1, b.2.trans a.2⟩

/-- A single `respond_putc` preserves cursors sanity, the drain cursor and
every occupied byte: the written slot is the head slot, never an occupied one. -/
theorem respond_putc_preserves (c : Char) (st : RingBuf) (h : goodCursors st) :
    goodCursors (respond_putc c st).2 ∧ RingPreserved st (respond_putc c st).2 := by
  obtain ⟨h1, h2, h3⟩ := h
  by_cases hfull : nextIndex st = st.tx_sent
  · unfold respond_putc
    rw [if_pos hfull]
    exact ⟨⟨h1, h2, h3⟩, ringPreserved_rfl st⟩
  · unfold respond_putc
    rw [if_neg hfull]
    refine ⟨⟨?_, h2, ?_⟩, rfl, ?_, ?_⟩
    · show nextIndex st < OUT_SIZE
      unfold nextIndex OUT_SIZE at *
      split_ifs <;> omega
    · show (st.buf.set st.tx_index c).length = OUT_SIZE
      simpa [List.length_set] using h3
    · show (st.buf.set st.tx_index c).length = st.buf.length
      simp [List.length_set]
    · intro i hi
      have hne : st.tx_index ≠ i := by
        intro he
        rw [← he] at hi
        unfold occupiedAt occupied at hi
        omega
      constructor
      · show occupiedAt ⟨st.buf.set st.tx_index c, nextIndex st, st.tx_sent, st.written ++ [c]⟩ i
        unfold occupiedAt occupied at hi ⊢
        dsimp only at hi ⊢
        unfold nextIndex OUT_SIZE at *
        split_ifs at * <;> omega
      · show (st.buf.set st.tx_index c)[i]? = st.buf[i]?
        exact List.getElem?_set_ne hne

/-- The inner render loop preserves the drain cursor and occupied bytes. -/
theorem putList_preserves : ∀ (s : List Char) (st : RingBuf), goodCursors st →
    goodCursors (putList s st).2 ∧ RingPreserved st (putList s st).2 := by
  intro s
  induction s with
  | nil => intro st h; exact ⟨h, ringPreserved_rfl st⟩
  | cons c cs ih =>
    intro st h
    have hp := respond_putc_preserves c st h
    simp only [putList]
    by_cases hb : (respond_putc c st).1
    · rw [if_pos hb]
      have h2 := ih (respond_putc c st).2 hp.1
      exact ⟨h2.1, ringPreserved_trans hp.2 h2.2⟩
    · rw [if_neg hb]
      exact hp

/-- The whole render loop preserves the drain cursor and occupied bytes. -/
theorem vrespondAux_preserves : ∀ (f : Nat) (fmt : List Char) (args : List Arg)
    (r : Int) (st : RingBuf), goodCursors st →
    goodCursors (vrespondAux f fmt args r st).2 ∧
    RingPreserved st (vrespondAux f fmt args r st).2 := by
  intro f
  induction f with
  | zero =>
    intro fmt args r st h
    cases fmt <;> exact ⟨h, ringPreserved_rfl st⟩
  | succ n ih =>
    intro fmt args r st h
    cases fmt with
    | nil => exact ⟨h, ringPreserved_rfl st⟩
    | cons c rest =>
      show goodCursors (vrespondAux (n + 1) (c :: rest) args r st).2 ∧ _
      simp only [vrespondAux]
      by_cases hp : c = '%'
      · rw [if_pos hp]
        by_cases hu : (convParse rest).1 = ConvType.UNKNOWN
        · rw [if_pos hu]
          exact ⟨h, ringPreserved_rfl st⟩
        · rw [if_neg hu]
          cases hrd : (renderDirective (convParse rest).1 args).1 with
          | none => exact ih _ _ r st h
          | some s =>
            dsimp only
            have hl2 := putList_preserves s st h
            by_cases hl : (putList s st).1
            · rw [if_pos hl]
              have h3 := ih (convParse rest).2 (renderDirective (convParse rest).1 args).2 r
                (putList s st).2 hl2.1
              exact ⟨h3.1, ringPreserved_trans hl2.2 h3.2⟩
            · rw [if_neg hl]
              exact hl2
      · rw [if_neg hp]
        have hp2 := respond_putc_preserves c st h
        by_cases hb : (respond_putc c st).1
        · rw [if_pos hb]
          have h3 := ih rest args (r + 1) (respond_putc c st).2 hp2.1
          exact ⟨h3.1, ringPreserved_trans hp2.2 h3.2⟩
        · rw [if_neg hb]
          exact hp2

/-- C4: when the buffer fills mid-render, rendering just stops: the render
never touches the drain cursor, keeps the cursors sane, and never overwrites
a byte that was written but not yet drained. -/
theorem vrespond_full_buffer_truncates (r0 : Int) (fmt : List Char)
    (args : List Arg) (st : RingBuf) (h : goodCursors st) :
    (vrespond r0 fmt args st).2.tx_sent = st.tx_sent ∧
    goodCursors (vrespond r0 fmt args st).2 ∧
    ∀ i, occupiedAt st i →
      occupiedAt (vrespond r0 fmt args st).2 i ∧
      (vrespond r0 fmt args st).2.buf[i]? = st.buf[i]? := by
  have h2 := vrespondAux_preserves fmt.length fmt args r0 st h
  exact ⟨h2.2.1, h2.1, h2.2.2.2⟩

theorem vrespond_full_buffer_truncates_witness :
    goodCursors st0 ∧ occupiedAt st0 1 ∧
    (vrespond 0 ("hi".toList) [] st0).2.tx_sent = st0.tx_sent ∧
    (vrespond 0 ("hi".toList) [] st0).2.buf[1]? = st0.buf[1]? := by
  have hg : goodCursors st0 := by
    refine ⟨by norm_num [st0, OUT_SIZE], by norm_num [st0, OUT_SIZE], ?_⟩
    simp [st0, List.length_replicate]
  have h := vrespond_full_buffer_truncates 0 ("hi".toList) [] st0 hg
  exact ⟨hg, by decide, h.1, (h.2.2 1 (by decide)).2⟩

/-- Fuel bounds the emitted digit count: below `10 ^ k` at most `k` digits. -/
theorem natDigitsAux_len : ∀ (f k n : Nat), n < 10 ^ k → (natDigitsAux f n).length ≤ k := by
  intro f
  induction f with
  | zero => intro k n _; simp [natDigitsAux]
  | succ m ih =>
    intro k n hn
    cases n with
    | zero => simp [natDigitsAux]
    | succ n =>
      cases k with
      | zero => omega
      | succ k =>
        show (natDigitsAux (m + 1) (n + 1)).length ≤ k + 1
        simp only [natDigitsAux, List.length_append, List.length_cons, List.length_nil]
        have h10 : n + 1 < 10 * 10 ^ k := by
          rw [pow_succ] at hn
          omega
        have hdiv : (n + 1) / 10 < 10 ^ k := Nat.div_lt_of_lt_mul h10
        have := ih k ((n + 1) / 10) hdiv
        omega

/-- A uint16 value prints in at most five digits. -/
theorem natToDec_len (n : Nat) (h : n < 100000) : (natToDec n).length ≤ 5 := by
  unfold natToDec
  split_ifs
  · simp
  · refine natDigitsAux_len (n + 1) 5 n ?_
    have h5 : (10 : Nat) ^ 5 = 100000 := by norm_num
    rw [h5]
    exact h

/-- A put into an unwrapped ring with the drain cursor at zero and a free
slot ahead always succeeds and appends the byte. -/
theorem respond_putc_room (c : Char) (st : RingBuf) (h0 : st.tx_sent = 0)
    (h1 : st.tx_index + 1 < OUT_SIZE) :
    respond_putc c st =
      (true, ⟨st.buf.set st.tx_index c, st.tx_index + 1, st.tx_sent, st.written ++ [c]⟩) := by
  have hw : ¬ (st.tx_index + 1 ≥ OUT_SIZE) := by omega
  have hnext : nextIndex st = st.tx_index + 1 := by
    unfold nextIndex
    rw [if_neg hw]
  unfold respond_putc
  rw [hnext, if_neg (by omega : ¬ st.tx_index + 1 = st.tx_sent)]

/-- The if-reduction for a put known to have succeeded. -/
theorem if_put_true {γ : Type} (st2 : RingBuf) (x y : γ) :
    (if ((true, st2) : Bool × RingBuf).1 = true then x else y) = x := rfl

/-- Draining a rendered string into an unwrapped ring with room appends it
verbatim. -/
theorem putList_room : ∀ (s : List Char) (st : RingBuf), st.tx_sent = 0 →
    st.tx_index + s.length < OUT_SIZE →
    (putList s st).1 = true ∧
    (putList s st).2.tx_index = st.tx_index + s.length ∧
    (putList s st).2.tx_sent = 0 ∧
    (putList s st).2.written = st.written ++ s := by
  intro s
  induction s with
  | nil =>
    intro st h0 _
    exact ⟨rfl, by simp [putList], h0, by simp [putList]⟩
  | cons c cs ih =>
    intro st h0 hlen
    have hr := respond_putc_room c st h0 (by simp only [List.length_cons] at hlen; omega)
    simp only [putList, hr]
    rw [if_pos (by simp)]
    have hrec := ih ⟨st.buf.set st.tx_index c, st.tx_index + 1, st.tx_sent, st.written ++ [c]⟩
      h0 (by simp only [List.length_cons] at hlen; simpa using (by omega : st.tx_index + 1 + cs.length < OUT_SIZE))
    refine ⟨hrec.1, ?_, hrec.2.2.1, ?_⟩
    · rw [hrec.2.1]
      simp only [List.length_cons]
      omega
    · rw [hrec.2.2.2]
      simp

/-- A render whose full text fits in the free space of an unwrapped ring
appends exactly that text. -/
theorem vrespondAux_room : ∀ (f : Nat) (fmt : List Char) (args : List Arg) (r : Int)
    (st : RingBuf) (out : List Char),
    renderedText f fmt args = some out → fmt.length ≤ f →
    st.tx_sent = 0 → st.tx_index + out.length < OUT_SIZE →
    (vrespondAux f fmt args r st).2.written = st.written ++ out ∧
    (vrespondAux f fmt args r st).2.tx_index = st.tx_index + out.length ∧
    (vrespondAux f fmt args r st).2.tx_sent = 0 := by
  intro f
  induction f with
  | zero =>
    intro fmt args r st out hrt hlen h0 _
    have hnil : fmt = [] := by
      cases fmt with
      | nil => rfl
      | cons c rest => simp at hlen
    subst hnil
    have hout : out = [] := by
      simp only [renderedText] at hrt
      exact (Option.some_inj.mp hrt).symm
    subst hout
    rw [vrespondAux_nil]
    exact ⟨by simp, by simp, h0⟩
  | succ n ih =>
    intro fmt args r st out hrt hlen h0 hroom
    cases fmt with
    | nil =>
      have hout : out = [] := by
        simp only [renderedText] at hrt
        exact (Option.some_inj.mp hrt).symm
      subst hout
      rw [vrespondAux_nil]
      exact ⟨by simp, by simp, h0⟩
    | cons c rest =>
      have hrlen : rest.length ≤ n := by simpa using hlen
      have hclen : (convParse rest).2.length ≤ n := le_trans (convParse_len rest) hrlen
      simp only [vrespondAux]
      by_cases hp : c = '%'
      · rw [if_pos hp]
        rw [hp] at hrt
        by_cases hu : (convParse rest).1 = ConvType.UNKNOWN
        · exfalso
          simp [renderedText, hu] at hrt
        · rw [if_neg hu]
          simp only [renderedText, if_pos rfl, if_neg hu] at hrt
          cases hrd : (renderDirective (convParse rest).1 args).1 with
          | none =>
            rw [hrd] at hrt
            exact ih (convParse rest).2 (renderDirective (convParse rest).1 args).2 r st out
              hrt hclen h0 hroom
          | some s =>
            rw [hrd] at hrt
            dsimp only at hrt ⊢
            cases hin : renderedText n (convParse rest).2 (renderDirective (convParse rest).1 args).2 with
            | none => rw [hin] at hrt; simp at hrt
            | some out2 =>
              rw [hin] at hrt
              dsimp only at hrt
              have hout : out = s ++ out2 := (Option.some_inj.mp hrt).symm
              subst hout
              have hsl : st.tx_index + s.length < OUT_SIZE := by
                simp only [List.length_append] at hroom
                omega
              have hpl := putList_room s st h0 hsl
              rw [hpl.1, if_pos rfl]
              have hroom2 : (putList s st).2.tx_index + out2.length < OUT_SIZE := by
                rw [hpl.2.1]
                simp only [List.length_append] at hroom
                omega
              have hrec := ih (convParse rest).2 (renderDirective (convParse rest).1 args).2 r
                (putList s st).2 out2 hin hclen hpl.2.2.1 hroom2
              refine ⟨?_, ?_, hrec.2.2⟩
              · rw [hrec.1, hpl.2.2.2]
                simp [List.append_assoc]
              · rw [hrec.2.1, hpl.2.1]
                simp only [List.length_append]
                omega
      · rw [if_neg hp]
        simp only [renderedText, if_neg hp] at hrt
        cases hin : renderedText n rest args with
        | none => rw [hin] at hrt; simp at hrt
        | some out2 =>
          rw [hin] at hrt
          dsimp only at hrt
          have hout : out = c :: out2 := (Option.some_inj.mp hrt).symm
          subst hout
          have hput := respond_putc_room c st h0
            (by simp only [List.length_cons] at hroom; omega)
          rw [hput, if_put_true]
          have hrec := ih rest args (r + 1)
            ⟨st.buf.set st.tx_index c, st.tx_index + 1, st.tx_sent, st.written ++ [c]⟩ out2 hin
            hrlen h0 (by simp only [List.length_cons] at hroom; simpa using
              (by omega : st.tx_index + 1 + out2.length < OUT_SIZE))
          refine ⟨?_, ?_, hrec.2.2⟩
          · rw [hrec.1]
            simp
          · rw [hrec.2.1]
            simp only [List.length_cons]
            omega

/-- A natural rendered as a signed int prints its plain decimal digits. -/
theorem intToDec_natCast (v : Nat) : intToDec (v : Int) = natToDec v := by
  unfold intToDec
  rw [if_neg (Int.not_lt.mpr (Int.natCast_nonneg v)), Int.natAbs_ofNat]

/-- C6: a completed RESET accepts exactly the two privileged codes — 5511
enters the USB firmware-update boot path and 1033 schedules the delayed
watchdog reboot — while every other value triggers no hardware action and
emits `Er<value>\r\n` echoing the offending value (rendered into a fresh
ring). -/
theorem reset_command_two_codes (hw : Hw) (v x : Nat) (p : Parser)
    (hc : p.command = PCommand.RESET) (hv : p.values = [v, x]) (hlt : v < 65536) :
    (v = 5511 → perform_command hw p initRing = ([HwEffect.usb_boot], initRing)) ∧
    (v = 1033 → perform_command hw p initRing = ([HwEffect.watchdog_reboot], initRing)) ∧
    (v ≠ 5511 → v ≠ 1033 →
      (perform_command hw p initRing).1 = [] ∧
      (perform_command hw p initRing).2.written =
        'E' :: 'r' :: (natToDec v ++ ['\r', '\n'])) := by
  have hget : p.values.getD 0 0 = v := by rw [hv]; rfl
  have hperf : perform_command hw p initRing =
      (if v = 5511 then ([HwEffect.usb_boot], initRing)
       else if v = 1033 then ([HwEffect.watchdog_reboot], initRing)
       else ([], (respond 0 fmtErd [Arg.int (v : Int)] initRing).2)) := by
    unfold perform_command
    rw [hc]
    dsimp only
    rw [hget]
  refine ⟨?_, ?_, ?_⟩
  · intro h
    rw [hperf, if_pos h]
  · intro h
    rw [hperf, if_neg (by omega), if_pos h]
  · intro h5 h1
    rw [hperf, if_neg h5, if_neg h1]
    refine ⟨rfl, ?_⟩
    have hlen5 : (natToDec v).length ≤ 5 := natToDec_len v (by omega)
    have hrt : renderedText 6 ('E' :: 'r' :: '%' :: 'd' :: '\r' :: '\n' :: [])
        [Arg.int (v : Int)] = some ('E' :: 'r' :: (natToDec v ++ ['\r', '\n'])) := by
      simp [renderedText, convParse, convClass, renderDirective, takeArg, argAsInt,
        intToDec_natCast]
    have happ := vrespondAux_room 6 ('E' :: 'r' :: '%' :: 'd' :: '\r' :: '\n' :: [])
      [Arg.int (v : Int)] 0 initRing ('E' :: 'r' :: (natToDec v ++ ['\r', '\n'])) hrt
      (by norm_num) rfl
      (by
        simp only [initRing, List.length_cons, List.length_append, List.length_nil]
        unfold OUT_SIZE
        omega)
    exact happ.1

theorem reset_command_two_codes_witness :
    (⟨PState.VALUE, PCommand.RESET, 0, 0, [42, 0]⟩ : Parser).command = PCommand.RESET ∧
    (42 : Nat) < 65536 ∧
    (perform_command hw0 ⟨PState.VALUE, PCommand.RESET, 0, 0, [42, 0]⟩ initRing).1 = [] ∧
    (perform_command hw0 ⟨PState.VALUE, PCommand.RESET, 0, 0, [42, 0]⟩ initRing).2.written =
      'E' :: 'r' :: (natToDec 42 ++ ['\r', '\n']) := by
  have h := reset_command_two_codes hw0 42 0 ⟨PState.VALUE, PCommand.RESET, 0, 0, [42, 0]⟩
    rfl rfl (by norm_num)
  have h3 := h.2.2 (by norm_num) (by norm_num)
  exact ⟨rfl, by norm_num, h3.1, h3.2⟩
